import Mathlib

/-!
Verification of the CrackScan per-image analysis pipeline.

The repository core (app.py) converts an uploaded color image to grayscale,
blurs it, runs a dual-threshold edge detector, dilates the mask, derives a
density percentage, classifies a risk tier, filters connected components by
a minimum area, and draws labeled bounding boxes on a copy of the image.

App-level logic (thresholds, the density formula, the area filter, the
per-image loop, the result record) is embedded directly from app.py.
Library primitives (cvtColor, GaussianBlur, Canny, dilate, findContours,
rectangle, putText, number_input) are modelled from the description of the
corresponding components in the design document, with rational arithmetic
standing for floating point.
-/

namespace CrackScan

/-- A 2D image: height, width, and a total pixel function (meaningful on
the rectangle of rows below h and columns below w). -/
structure Img (α : Type) where
  h : ℕ
  w : ℕ
  pix : ℕ → ℕ → α

/-- A color pixel as a (blue, green, red) channel triple, matching the
channel order the decoder produces. -/
abbrev Color := ℚ × ℚ × ℚ

/-- The three risk tiers, ordered by severity. -/
inductive Status where
  | SAFE
  | WARNING
  | CRITICAL
deriving DecidableEq

/-- Risk classification from app.py: density below 0.1 is SAFE, otherwise
below 1.0 is WARNING, otherwise CRITICAL. -/
def classify (d : ℚ) : Status :=
  if d < 1/10 then Status.SAFE
  else if d < 1 then Status.WARNING
  else Status.CRITICAL

/-- Display color attached to each tier in app.py (RGB triples). -/
def statusColor : Status → Color
  | Status.SAFE => (0, 255, 0)
  | Status.WARNING => (255, 255, 0)
  | Status.CRITICAL => (255, 0, 0)

/-- The index rectangle of an h-by-w image. -/
def dom (h w : ℕ) : Finset (ℕ × ℕ) :=
  Finset.range h ×ˢ Finset.range w

/-- Number of edge-valued cells of a binary mask. -/
def countEdges (m : Img Bool) : ℕ :=
  ((dom m.h m.w).filter (fun p => m.pix p.1 p.2 = true)).card

/-- Density from app.py: the ratio of edge-valued cells to total cells,
times 100. -/
def density (m : Img Bool) : ℚ :=
  ((countEdges m : ℚ) / ((m.h : ℚ) * (m.w : ℚ))) * 100

/-- Clamp a (possibly negative) index into the valid range, modelling
replicated borders for the convolution stages. -/
def clampIdx (n : ℕ) (i : ℤ) : ℕ :=
  (min (max i 0) ((n : ℤ) - 1)).toNat

/-- Modelled from the spec: standard luma-weighted conversion of a
(blue, green, red) pixel to a single intensity. -/
def luma (c : Color) : ℚ :=
  (299/1000) * c.2.2 + (587/1000) * c.2.1 + (114/1000) * c.1

/-- Modelled from the spec: convert a 3-channel image to a single-channel
intensity image of identical dimensions. -/
def toGray (img : Img Color) : Img ℚ :=
  Img.mk img.h img.w (fun i j => luma (img.pix i j))

/-- Channel reordering of the decoded image for display, from app.py. -/
def bgr2rgb (img : Img Color) : Img Color :=
  Img.mk img.h img.w (fun i j => ((img.pix i j).2.2, (img.pix i j).2.1, (img.pix i j).1))

/-- Modelled from the spec: the normalized 5-tap smoothing kernel used by
the 5-by-5 blur, as offset and weight pairs; the weights sum to 1. -/
def k5 : List (ℤ × ℚ) :=
  [(-2, 1/16), (-1, 4/16), (0, 6/16), (1, 4/16), (2, 1/16)]

/-- Modelled from the spec: separable 5-by-5 smoothing blur with
replicated borders; output has identical dimensions. -/
def blur5 (g : Img ℚ) : Img ℚ :=
  Img.mk g.h g.w (fun i j =>
    (k5.map (fun a => a.2 *
      (k5.map (fun b => b.2 *
        g.pix (clampIdx g.h ((i : ℤ) + a.1)) (clampIdx g.w ((j : ℤ) + b.1)))).sum)).sum)

/-- 3-by-3 convolution with a kernel given as (row offset, column offset,
coefficient) triples, with replicated borders. -/
def conv3 (ker : List (ℤ × ℤ × ℚ)) (g : Img ℚ) (i j : ℕ) : ℚ :=
  (ker.map (fun t => t.2.2 *
    g.pix (clampIdx g.h ((i : ℤ) + t.1)) (clampIdx g.w ((j : ℤ) + t.2.1)))).sum

/-- Horizontal-gradient 3-by-3 kernel; its coefficients sum to 0. -/
def sobelXK : List (ℤ × ℤ × ℚ) :=
  [(-1, -1, -1), (-1, 1, 1), (0, -1, -2), (0, 1, 2), (1, -1, -1), (1, 1, 1)]

/-- Vertical-gradient 3-by-3 kernel; its coefficients sum to 0. -/
def sobelYK : List (ℤ × ℤ × ℚ) :=
  [(-1, -1, -1), (-1, 0, -2), (-1, 1, -1), (1, -1, 1), (1, 0, 2), (1, 1, 1)]

/-- Modelled from the spec: gradient magnitude of the smoothed image, the
quantity the dual thresholds of the edge detector are compared against. -/
def gradMag (g : Img ℚ) : Img ℚ :=
  Img.mk g.h g.w (fun i j => |conv3 sobelXK g i j| + |conv3 sobelYK g i j|)

/-- Cells whose gradient magnitude exceeds the given threshold. -/
def aboveSet (mg : Img ℚ) (t : ℚ) : Finset (ℕ × ℕ) :=
  (dom mg.h mg.w).filter (fun p => t < mg.pix p.1 p.2)

/-- 8-neighborhood adjacency of grid cells. -/
def adj8 (p q : ℕ × ℕ) : Prop :=
  p ≠ q ∧ ((p.1 : ℤ) - q.1).natAbs ≤ 1 ∧ ((p.2 : ℤ) - q.2).natAbs ≤ 1

instance (p q : ℕ × ℕ) : Decidable (adj8 p q) := by
  unfold adj8
  infer_instance

/-- One step of hysteresis growth: keep the current set and add the cells
above the low threshold adjacent to it. -/
def growStep (weak cur : Finset (ℕ × ℕ)) : Finset (ℕ × ℕ) :=
  cur ∪ weak.filter (fun p => ∃ q ∈ cur, adj8 p q)

/-- Modelled from the spec: hysteresis of the dual-threshold edge detector.
Edges are confirmed where gradient magnitude exceeds the low bound and
connects, through such cells, to a cell exceeding the high bound. The
growth step is iterated once per cell, enough to reach a fixpoint. -/
def hysteresis (weak strong : Finset (ℕ × ℕ)) (fuel : ℕ) : Finset (ℕ × ℕ) :=
  (growStep weak)^[fuel] strong

/-- Modelled from the spec: the dual-threshold gradient-based edge
detector producing a binary mask of identical dimensions. -/
def canny (g : Img ℚ) (low high : ℚ) : Img Bool :=
  Img.mk g.h g.w (fun i j =>
    decide ((i, j) ∈
      hysteresis (aboveSet (gradMag g) low) (aboveSet (gradMag g) high) (g.h * g.w)))

/-- The three offsets of a 3-by-3 neighborhood. -/
def offs3 : List ℤ := [-1, 0, 1]

/-- Modelled from the spec: morphological dilation with a 3-by-3
structuring element for one iteration; cells outside the grid never
contribute. -/
def dilate3 (m : Img Bool) : Img Bool :=
  Img.mk m.h m.w (fun i j =>
    offs3.any (fun di => offs3.any (fun dj =>
      decide (0 ≤ (i : ℤ) + di) && decide ((i : ℤ) + di < (m.h : ℤ)) &&
      decide (0 ≤ (j : ℤ) + dj) && decide ((j : ℤ) + dj < (m.w : ℤ)) &&
      m.pix ((i : ℤ) + di).toNat ((j : ℤ) + dj).toNat)))

/-- The EdgeMask of an image at a given sensitivity, from app.py: blur the
grayscale image, detect edges with low threshold equal to sensitivity and
high threshold 2.5 times that, then dilate once. -/
def edgeMask (img : Img Color) (sensitivity : ℚ) : Img Bool :=
  dilate3 (canny (blur5 (toGray img)) sensitivity (sensitivity * 2.5))

/-- The edge-valued cells of a mask as a finite set. -/
def edgeFinset (m : Img Bool) : Finset (ℕ × ℕ) :=
  (dom m.h m.w).filter (fun p => m.pix p.1 p.2 = true)

/-- Flood fill inside an edge set from a start cell, by iterating the
growth step once per cell of the set. -/
def flood (E : Finset (ℕ × ℕ)) (p : ℕ × ℕ) (fuel : ℕ) : Finset (ℕ × ℕ) :=
  (growStep E)^[fuel] {p}

/-- All cell positions of an h-by-w grid in row-major order. -/
def posList (h w : ℕ) : List (ℕ × ℕ) :=
  ((List.range h).map (fun i => (List.range w).map (fun j => (i, j)))).flatten

/-- One scan step of component discovery: on an unvisited edge cell,
flood its component and record it. -/
def scanStep (E : Finset (ℕ × ℕ)) (acc : List (Finset (ℕ × ℕ)) × Finset (ℕ × ℕ))
    (p : ℕ × ℕ) : List (Finset (ℕ × ℕ)) × Finset (ℕ × ℕ) :=
  if p ∈ E ∧ p ∉ acc.2 then
    (acc.1 ++ [flood E p E.card], acc.2 ∪ flood E p E.card)
  else acc

/-- Modelled from the spec: find the external connected components of the
EdgeMask, in a deterministic discovery order. -/
def findComponents (m : Img Bool) : List (Finset (ℕ × ℕ)) :=
  ((posList m.h m.w).foldl (scanStep (edgeFinset m)) ([], ∅)).1

/-- Pixel area of a component. -/
def area (c : Finset (ℕ × ℕ)) : ℕ := c.card

/-- The area filter from app.py: a component survives exactly when its
area is strictly greater than the minimum area. -/
def survivors (comps : List (Finset (ℕ × ℕ))) (minA : ℚ) : List (Finset (ℕ × ℕ)) :=
  comps.filter (fun c => decide (minA < (area c : ℚ)))

/-- Axis-aligned bounding box (x, y, width, height) of a component, where
x is the column and y the row of its top-left corner. -/
def bbox (c : Finset (ℕ × ℕ)) : ℕ × ℕ × ℕ × ℕ :=
  ((c.image Prod.snd).min.untop' 0, (c.image Prod.fst).min.untop' 0,
   (c.image Prod.snd).max.unbot' 0 - (c.image Prod.snd).min.untop' 0 + 1,
   (c.image Prod.fst).max.unbot' 0 - (c.image Prod.fst).min.untop' 0 + 1)

/-- Modelled from the spec: the cells of the 2-pixel-wide rectangle border
drawn for a box (x, y, width, height): the cells of the enclosing
rectangle that are not in its interior shrunk by the border thickness. -/
def rectBorder (b : ℕ × ℕ × ℕ × ℕ) : Finset (ℕ × ℕ) :=
  (Finset.Icc b.2.1 (b.2.1 + b.2.2.2) ×ˢ Finset.Icc b.1 (b.1 + b.2.2.1)) \
  (Finset.Icc (b.2.1 + 2) (b.2.1 + b.2.2.2 - 2) ×ˢ Finset.Icc (b.1 + 2) (b.1 + b.2.2.1 - 2))

/-- Modelled from the spec: a deterministic but otherwise unspecified text
renderer, mapping a label index and a box to the set of cells the label
text occupies. -/
abbrev GlyphFn : Type := ℕ → ℕ × ℕ × ℕ × ℕ → Finset (ℕ × ℕ)

/-- Set every cell of a given set to a color, leaving all other cells
unchanged; dimensions are preserved. -/
def drawPix (img : Img Color) (s : Finset (ℕ × ℕ)) (col : Color) : Img Color :=
  Img.mk img.h img.w (fun i j => if (i, j) ∈ s then col else img.pix i j)

/-- The drawing loop from app.py: over the discovered components, each one
whose area strictly exceeds the minimum gets a bounding-box border and a
label drawn in the tier color, and increments the running count, which
also provides the 1-based label index. -/
def annotate (img : Img Color) (comps : List (Finset (ℕ × ℕ))) (minA : ℚ)
    (col : Color) (glyph : GlyphFn) : Img Color × ℕ :=
  comps.foldl (fun acc c =>
    if minA < (area c : ℚ) then
      (drawPix (drawPix acc.1 (rectBorder (bbox c)) col) (glyph (acc.2 + 1) (bbox c)) col,
       acc.2 + 1)
    else acc) (img, 0)

/-- The set of cells the drawing loop may touch, starting from a given
running count: the union, over surviving components, of the box border
and the label cells at the index the loop assigns. -/
def drawnAux (minA : ℚ) (glyph : GlyphFn) : ℕ → List (Finset (ℕ × ℕ)) → Finset (ℕ × ℕ)
  | _, [] => ∅
  | n, c :: rest =>
    if minA < (area c : ℚ) then
      (rectBorder (bbox c) ∪ glyph (n + 1) (bbox c)) ∪ drawnAux minA glyph (n + 1) rest
    else drawnAux minA glyph n rest

/-- All cells the drawing loop may touch for a component list. -/
def drawnSet (comps : List (Finset (ℕ × ℕ))) (minA : ℚ) (glyph : GlyphFn) :
    Finset (ℕ × ℕ) :=
  drawnAux minA glyph 0 comps

/-- Rounding to 4 decimal places with ties to even, from app.py: the
density stored in the result record is round(density, 4). -/
def round4 (d : ℚ) : ℚ :=
  if d * 10000 - (⌊d * 10000⌋ : ℚ) < 1/2 then (⌊d * 10000⌋ : ℚ) / 10000
  else if (1/2 : ℚ) < d * 10000 - (⌊d * 10000⌋ : ℚ) then ((⌊d * 10000⌋ : ℚ) + 1) / 10000
  else if ⌊d * 10000⌋ % 2 = 0 then (⌊d * 10000⌋ : ℚ) / 10000
  else ((⌊d * 10000⌋ : ℚ) + 1) / 10000

/-- Batch configuration, set once in the sidebar and applied to every
image of the batch. -/
structure Config where
  sensitivity : ℚ
  min_area : ℚ

/-- Modelled from the spec: the minimum-area number input of the sidebar,
which has a default of 100 and no bound, so it returns whatever value the
user entered. -/
def min_area_config (entered : Option ℚ) : ℚ :=
  entered.getD 100

/-- The per-image result record assembled in app.py. -/
structure AnalysisResult where
  name : String
  density : ℚ
  count : ℕ
  status : Status
  img : Img Color

/-- The per-image pipeline from app.py: build the EdgeMask, score its
density, classify the tier, draw boxes on a copy of the display image,
and assemble the record, rounding the stored density to 4 places while
classifying from the unrounded value. -/
def processImage (cfg : Config) (glyph : GlyphFn) (nm : String) (img : Img Color) :
    AnalysisResult :=
  let dil := edgeMask img cfg.sensitivity
  let d := density dil
  let ann := annotate (bgr2rgb img) (findComponents dil) cfg.min_area
    (statusColor (classify d)) glyph
  AnalysisResult.mk nm (round4 d) ann.2 (classify d) ann.1

/-- The batch loop from app.py: each uploaded file is decoded and run
through the pipeline in order. A file whose bytes do not decode yields
none from the decoder, and the loop has no handler for that case, so the
whole run aborts and no result list is produced. -/
def processBatch (cfg : Config) (glyph : GlyphFn) :
    List (String × Option (Img Color)) → Except Unit (List AnalysisResult)
  | [] => Except.ok []
  | (_, none) :: _ => Except.error ()
  | (nm, some img) :: rest =>
    (processBatch cfg glyph rest).map (fun rs => processImage cfg glyph nm img :: rs)

/-- A mask whose edge cells are the first k cells of the top row. -/
def stripeMask (h w k : ℕ) : Img Bool :=
  Img.mk h w (fun i j => decide (i = 0) && decide (j < k))

/-- A concrete all-black 2-by-2 test image. -/
def blackImg : Img Color :=
  Img.mk 2 2 (fun _ _ => (0, 0, 0))

/-- A 1-by-1000 mask with 999 edge cells; its density is 99.9. -/
def d10mask1 : Img Bool := stripeMask 1 1000 999

/-- A 1-by-1001 mask with 1000 edge cells; its density is 100000/1001,
which exceeds 99.9 by less than one unit in the fourth decimal place. -/
def d10mask2 : Img Bool := stripeMask 1 1001 1000

theorem countEdges_le (m : Img Bool) : countEdges m ≤ m.h * m.w := by
  have h1 : (dom m.h m.w).card = m.h * m.w := by
    simp [dom, Finset.card_product]
  calc countEdges m ≤ (dom m.h m.w).card := Finset.card_filter_le _ _
    _ = m.h * m.w := h1

/-- C1: Tier classification is a total, deterministic function of density:
SAFE iff d < 0.1, WARNING iff 0.1 ≤ d < 1.0, CRITICAL iff d ≥ 1.0; in
particular d = 0.1 gives WARNING and d = 1.0 gives CRITICAL, and the three
cases are mutually exclusive and exhaustive. -/
theorem classify_total_three_tier (d : ℚ) :
    (classify d = Status.SAFE ↔ d < 1/10) ∧
    (classify d = Status.WARNING ↔ 1/10 ≤ d ∧ d < 1) ∧
    (classify d = Status.CRITICAL ↔ 1 ≤ d) ∧
    classify (1/10) = Status.WARNING ∧
    classify 1 = Status.CRITICAL := by
  refine ⟨?_, ?_, ?_, ?_, ?_⟩
  · unfold classify
    split_ifs with h1 h2 <;> simp_all
  · unfold classify
    split_ifs with h1 h2 <;> simp_all
  · unfold classify
    split_ifs with h1 h2 <;> simp_all
    linarith
  · unfold classify
    norm_num
  · unfold classify
    norm_num

/-- C2: For every nonempty EdgeMask the density equals the edge-cell count
divided by the total cell count, times 100, and lies in the closed
interval from 0 to 100. -/
theorem density_formula_and_bounds (m : Img Bool) (hm : 0 < m.h * m.w) :
    density m = ((countEdges m : ℚ) / ((m.h : ℚ) * (m.w : ℚ))) * 100 ∧
    0 ≤ density m ∧ density m ≤ 100 := by
  refine ⟨rfl, ?_, ?_⟩
  · apply mul_nonneg _ (by norm_num)
    apply div_nonneg (by positivity)
    positivity
  · have hsz : (0 : ℚ) < (m.h : ℚ) * (m.w : ℚ) := by
      exact_mod_cast Nat.cast_pos.mpr hm |>.trans_eq (by push_cast; ring)
    have hcount : (countEdges m : ℚ) ≤ (m.h : ℚ) * (m.w : ℚ) := by
      exact_mod_cast countEdges_le m
    unfold density
    have hdiv : (countEdges m : ℚ) / ((m.h : ℚ) * (m.w : ℚ)) ≤ 1 :=
      (div_le_one hsz).mpr hcount
    nlinarith

/-- Closed instance of density_formula_and_bounds at a concrete 2-by-2 mask
with one edge cell. -/
theorem density_formula_and_bounds_witness :
    0 < (Img.mk 2 2 (fun i j => decide (i = 0 ∧ j = 0)) : Img Bool).h *
        (Img.mk 2 2 (fun i j => decide (i = 0 ∧ j = 0)) : Img Bool).w ∧
    0 ≤ density (Img.mk 2 2 (fun i j => decide (i = 0 ∧ j = 0))) ∧
    density (Img.mk 2 2 (fun i j => decide (i = 0 ∧ j = 0))) ≤ 100 :=
  ⟨by decide,
   (density_formula_and_bounds _ (by decide)).2.1,
   (density_formula_and_bounds _ (by decide)).2.2⟩

theorem annotate_foldl_snd (minA : ℚ) (col : Color) (glyph : GlyphFn)
    (comps : List (Finset (ℕ × ℕ))) :
    ∀ st : Img Color × ℕ,
      (comps.foldl (fun acc c =>
        if minA < (area c : ℚ) then
          (drawPix (drawPix acc.1 (rectBorder (bbox c)) col) (glyph (acc.2 + 1) (bbox c)) col,
           acc.2 + 1)
        else acc) st).2 = st.2 + (survivors comps minA).length := by
  induction comps with
  | nil => intro st; simp [survivors]
  | cons c rest ih =>
    intro st
    by_cases hc : minA < (area c : ℚ)
    · simp only [List.foldl_cons, if_pos hc]
      rw [ih]
      simp [survivors, List.filter_cons, hc]
      omega
    · simp only [List.foldl_cons, if_neg hc]
      rw [ih]
      simp [survivors, List.filter_cons, hc]

theorem annotate_snd (img : Img Color) (comps : List (Finset (ℕ × ℕ))) (minA : ℚ)
    (col : Color) (glyph : GlyphFn) :
    (annotate img comps minA col glyph).2 = (survivors comps minA).length := by
  unfold annotate
  rw [annotate_foldl_snd]
  simp

theorem filter_length_mono {α : Type} (p q : α → Bool)
    (h : ∀ a, p a = true → q a = true) (l : List α) :
    (l.filter p).length ≤ (l.filter q).length := by
  induction l with
  | nil => simp
  | cons a rest ih =>
    by_cases hp : p a = true
    · simp [List.filter_cons, hp, h a hp]
      omega
    · rcases hq : q a with _ | _
      · simp [List.filter_cons, hp, hq]
        exact ih
      · simp [List.filter_cons, hp, hq]
        omega

/-- C3: A component survives the Region Extractor exactly when its area is
strictly greater than the minimum area; a component whose area equals the
minimum never survives; and the region count equals the number of
surviving components. -/
theorem survivors_strict_cutoff (comps : List (Finset (ℕ × ℕ))) (minA : ℚ)
    (c : Finset (ℕ × ℕ)) (img : Img Color) (col : Color) (glyph : GlyphFn) :
    (c ∈ survivors comps minA ↔ c ∈ comps ∧ minA < (area c : ℚ)) ∧
    c ∉ survivors comps ((area c : ℕ) : ℚ) ∧
    (annotate img comps minA col glyph).2 = (survivors comps minA).length := by
  refine ⟨?_, ?_, annotate_snd img comps minA col glyph⟩
  · simp [survivors, List.mem_filter]
  · simp [survivors, List.mem_filter]

/-- C7: With the image and EdgeMask (hence the component list) fixed, the
region count is monotonically non-increasing in the minimum area. -/
theorem region_count_antitone (img : Img Color) (comps : List (Finset (ℕ × ℕ)))
    (a1 a2 : ℚ) (col : Color) (glyph : GlyphFn) (h : a1 ≤ a2) :
    (annotate img comps a2 col glyph).2 ≤ (annotate img comps a1 col glyph).2 := by
  rw [annotate_snd, annotate_snd]
  apply filter_length_mono
  intro c hc
  simp only [decide_eq_true_eq] at hc ⊢
  linarith

/-- Closed instance of region_count_antitone with minimum areas 0 and 1 on
a one-component list. -/
theorem region_count_antitone_witness :
    (0 : ℚ) ≤ 1 ∧
    (annotate blackImg [{(0, 0)}] 1 (0, 255, 0) (fun _ _ => ∅)).2 ≤
      (annotate blackImg [{(0, 0)}] 0 (0, 255, 0) (fun _ _ => ∅)).2 :=
  ⟨by norm_num,
   region_count_antitone blackImg [{(0, 0)}] 0 1 (0, 255, 0) (fun _ _ => ∅) (by norm_num)⟩

/-- C5 (code bug): the minimum-area input applies no validation, so a
negative entered value reaches the area filter unchanged and the filter
runs with it, every component surviving. -/
theorem min_area_not_validated :
    min_area_config (some (-5)) = -5 ∧ ((-5 : ℚ) < 0) ∧
    survivors [{(0, 0)}] (-5) = [{(0, 0)}] := by
  refine ⟨rfl, by norm_num, ?_⟩
  simp [survivors, area]
  norm_num

/-- C4 (code bug): the batch loop has no per-image error handling, so one
undecodable file aborts the whole run and the remaining images yield no
result, while the same batch without the bad file processes normally. -/
theorem decode_failure_aborts_batch :
    processBatch (Config.mk 100 100) (fun _ _ => ∅)
      [("bad.png", none), ("good.png", some blackImg)] = Except.error () ∧
    processBatch (Config.mk 100 100) (fun _ _ => ∅)
      [("good.png", some blackImg)] =
      Except.ok [processImage (Config.mk 100 100) (fun _ _ => ∅) "good.png" blackImg] := by
  constructor
  · rfl
  · rfl

theorem annotate_foldl_frame (minA : ℚ) (col : Color) (glyph : GlyphFn)
    (comps : List (Finset (ℕ × ℕ))) :
    ∀ (img0 : Img Color) (n : ℕ),
      (comps.foldl (fun acc c =>
        if minA < (area c : ℚ) then
          (drawPix (drawPix acc.1 (rectBorder (bbox c)) col) (glyph (acc.2 + 1) (bbox c)) col,
           acc.2 + 1)
        else acc) (img0, n)).1.h = img0.h ∧
      (comps.foldl (fun acc c =>
        if minA < (area c : ℚ) then
          (drawPix (drawPix acc.1 (rectBorder (bbox c)) col) (glyph (acc.2 + 1) (bbox c)) col,
           acc.2 + 1)
        else acc) (img0, n)).1.w = img0.w ∧
      ∀ p : ℕ × ℕ, p ∉ drawnAux minA glyph n comps →
        (comps.foldl (fun acc c =>
          if minA < (area c : ℚ) then
            (drawPix (drawPix acc.1 (rectBorder (bbox c)) col) (glyph (acc.2 + 1) (bbox c)) col,
             acc.2 + 1)
          else acc) (img0, n)).1.pix p.1 p.2 = img0.pix p.1 p.2 := by
  induction comps with
  | nil =>
    intro img0 n
    exact ⟨rfl, rfl, fun p _ => rfl⟩
  | cons c rest ih =>
    intro img0 n
    by_cases hc : minA < (area c : ℚ)
    · simp only [List.foldl_cons, if_pos hc]
      obtain ⟨ihh, ihw, ihp⟩ :=
        ih (drawPix (drawPix img0 (rectBorder (bbox c)) col) (glyph (n + 1) (bbox c)) col) (n + 1)
      refine ⟨by rw [ihh]; rfl, by rw [ihw]; rfl, ?_⟩
      intro p hp
      rw [drawnAux, if_pos hc] at hp
      simp only [Finset.mem_union, not_or] at hp
      obtain ⟨⟨hpB, hpG⟩, hpRest⟩ := hp
      rw [ihp p hpRest]
      simp [drawPix, hpB, hpG]
    · simp only [List.foldl_cons, if_neg hc]
      obtain ⟨ihh, ihw, ihp⟩ := ih img0 n
      refine ⟨ihh, ihw, ?_⟩
      intro p hp
      rw [drawnAux, if_neg hc] at hp
      exact ihp p hp

/-- C6: The annotated output has exactly the dimensions of the input
image, and every cell outside the drawn box borders and label cells holds
the same pixel as the input image, which the pure drawing loop never
mutates. -/
theorem annotate_frame (img : Img Color) (comps : List (Finset (ℕ × ℕ))) (minA : ℚ)
    (col : Color) (glyph : GlyphFn) :
    (annotate img comps minA col glyph).1.h = img.h ∧
    (annotate img comps minA col glyph).1.w = img.w ∧
    ∀ p : ℕ × ℕ, p ∉ drawnSet comps minA glyph →
      (annotate img comps minA col glyph).1.pix p.1 p.2 = img.pix p.1 p.2 := by
  unfold annotate drawnSet
  exact annotate_foldl_frame minA col glyph comps img 0

/-- Closed instance of annotate_frame: a cell away from the single drawn
box keeps its original pixel. -/
theorem annotate_frame_witness :
    ((9, 9) ∉ drawnSet [{(0, 0)}] 0 (fun _ _ => ∅)) ∧
    (annotate blackImg [{(0, 0)}] 0 (0, 255, 0) (fun _ _ => ∅)).1.pix 9 9 =
      blackImg.pix 9 9 :=
  ⟨by decide,
   (annotate_frame blackImg [{(0, 0)}] 0 (0, 255, 0) (fun _ _ => ∅)).2.2 (9, 9) (by decide)⟩

theorem aboveSet_anti (mg : Img ℚ) {t1 t2 : ℚ} (h : t1 ≤ t2) :
    aboveSet mg t2 ⊆ aboveSet mg t1 := by
  intro p hp
  simp only [aboveSet, Finset.mem_filter] at hp ⊢
  exact ⟨hp.1, lt_of_le_of_lt h hp.2⟩

theorem growStep_mono {w1 w2 c1 c2 : Finset (ℕ × ℕ)} (hw : w2 ⊆ w1) (hc : c2 ⊆ c1) :
    growStep w2 c2 ⊆ growStep w1 c1 := by
  intro x hx
  rcases Finset.mem_union.mp hx with hx | hx
  · exact Finset.mem_union_left _ (hc hx)
  · apply Finset.mem_union_right
    simp only [Finset.mem_filter] at hx ⊢
    obtain ⟨hxw, q, hq, hadj⟩ := hx
    exact ⟨hw hxw, q, hc hq, hadj⟩

theorem hysteresis_mono {w1 w2 s1 s2 : Finset (ℕ × ℕ)} (hw : w2 ⊆ w1) (hs : s2 ⊆ s1)
    (n : ℕ) : hysteresis w2 s2 n ⊆ hysteresis w1 s1 n := by
  induction n with
  | zero => exact hs
  | succ k ih =>
    unfold hysteresis at ih ⊢
    rw [Function.iterate_succ_apply', Function.iterate_succ_apply']
    exact growStep_mono hw ih

theorem canny_pix_mono (g : Img ℚ) {low1 high1 low2 high2 : ℚ}
    (hl : low1 ≤ low2) (hh : high1 ≤ high2) (i j : ℕ)
    (hp : (canny g low2 high2).pix i j = true) :
    (canny g low1 high1).pix i j = true := by
  simp only [canny, decide_eq_true_eq] at hp ⊢
  exact hysteresis_mono (aboveSet_anti _ hl) (aboveSet_anti _ hh) _ hp

theorem edgeMask_pix_mono (img : Img Color) {s1 s2 : ℚ} (h : s1 ≤ s2) (i j : ℕ)
    (hp : (edgeMask img s2).pix i j = true) :
    (edgeMask img s1).pix i j = true := by
  have h25 : s1 * 2.5 ≤ s2 * 2.5 := by linarith
  simp only [edgeMask, dilate3, List.any_eq_true, Bool.and_eq_true] at hp ⊢
  obtain ⟨di, hdi, dj, hdj, ⟨⟨⟨h1, h2⟩, h3⟩, h4⟩, h5⟩ := hp
  exact ⟨di, hdi, dj, hdj, ⟨⟨⟨h1, h2⟩, h3⟩, h4⟩, canny_pix_mono _ h h25 _ _ h5⟩

/-- C8: Raising the sensitivity never adds edge cells to the EdgeMask, so
the edge-cell count, and with it the density, is monotonically
non-increasing in the sensitivity. -/
theorem edge_density_antitone_in_sensitivity (img : Img Color) (s1 s2 : ℚ)
    (h : s1 ≤ s2) :
    countEdges (edgeMask img s2) ≤ countEdges (edgeMask img s1) ∧
    density (edgeMask img s2) ≤ density (edgeMask img s1) := by
  have hcount : countEdges (edgeMask img s2) ≤ countEdges (edgeMask img s1) := by
    apply Finset.card_le_card
    intro p hp
    simp only [Finset.mem_filter] at hp ⊢
    exact ⟨hp.1, edgeMask_pix_mono img h p.1 p.2 hp.2⟩
  refine ⟨hcount, ?_⟩
  unfold density
  have hc : (countEdges (edgeMask img s2) : ℚ) ≤ (countEdges (edgeMask img s1) : ℚ) := by
    exact_mod_cast hcount
  show (countEdges (edgeMask img s2) : ℚ) / ((img.h : ℚ) * (img.w : ℚ)) * 100 ≤
    (countEdges (edgeMask img s1) : ℚ) / ((img.h : ℚ) * (img.w : ℚ)) * 100
  rcases eq_or_lt_of_le (by positivity : (0 : ℚ) ≤ (img.h : ℚ) * (img.w : ℚ)) with hD | hD
  · rw [← hD]
    simp
  · gcongr

/-- Closed instance of edge_density_antitone_in_sensitivity at
sensitivities 20 and 100 on a concrete image. -/
theorem edge_density_antitone_in_sensitivity_witness :
    (20 : ℚ) ≤ 100 ∧
    countEdges (edgeMask blackImg 100) ≤ countEdges (edgeMask blackImg 20) ∧
    density (edgeMask blackImg 100) ≤ density (edgeMask blackImg 20) :=
  ⟨by norm_num,
   (edge_density_antitone_in_sensitivity blackImg 20 100 (by norm_num)).1,
   (edge_density_antitone_in_sensitivity blackImg 20 100 (by norm_num)).2⟩

theorem clampIdx_lt {n : ℕ} (hn : 0 < n) (i : ℤ) : clampIdx n i < n := by
  unfold clampIdx
  have h1 : min (max i 0) ((n : ℤ) - 1) ≤ (n : ℤ) - 1 := min_le_right _ _
  have h2 : (0 : ℤ) ≤ min (max i 0) ((n : ℤ) - 1) :=
    le_min (le_max_right _ _) (by omega)
  omega

theorem blur5_const (g : Img ℚ) (v : ℚ) (hh : 0 < g.h) (hw : 0 < g.w)
    (hv : ∀ i j, i < g.h → j < g.w → g.pix i j = v) (i j : ℕ) :
    (blur5 g).pix i j = v := by
  have hv2 : ∀ a b : ℤ, g.pix (clampIdx g.h a) (clampIdx g.w b) = v :=
    fun a b => hv _ _ (clampIdx_lt hh a) (clampIdx_lt hw b)
  simp only [blur5, k5, List.map_cons, List.map_nil, List.sum_cons, List.sum_nil, hv2]
  ring

theorem map_mul_const_sum (l : List (ℤ × ℤ × ℚ)) (v : ℚ) :
    (l.map (fun t => t.2.2 * v)).sum = (l.map (fun t => t.2.2)).sum * v := by
  induction l with
  | nil => simp
  | cons t rest ih =>
    simp only [List.map_cons, List.sum_cons, ih]
    ring

theorem conv3_const_zero (ker : List (ℤ × ℤ × ℚ)) (g : Img ℚ) (v : ℚ)
    (hh : 0 < g.h) (hw : 0 < g.w)
    (hv : ∀ i j, i < g.h → j < g.w → g.pix i j = v) (i j : ℕ)
    (hker : (ker.map (fun t => t.2.2)).sum = 0) :
    conv3 ker g i j = 0 := by
  have hv2 : ∀ a b : ℤ, g.pix (clampIdx g.h a) (clampIdx g.w b) = v :=
    fun a b => hv _ _ (clampIdx_lt hh a) (clampIdx_lt hw b)
  unfold conv3
  simp only [hv2]
  rw [map_mul_const_sum, hker]
  ring

theorem gradMag_const_zero (g : Img ℚ) (v : ℚ) (hh : 0 < g.h) (hw : 0 < g.w)
    (hv : ∀ i j, i < g.h → j < g.w → g.pix i j = v) (i j : ℕ) :
    (gradMag g).pix i j = 0 := by
  simp only [gradMag]
  rw [conv3_const_zero sobelXK g v hh hw hv i j (by norm_num [sobelXK]),
      conv3_const_zero sobelYK g v hh hw hv i j (by norm_num [sobelYK])]
  simp

theorem aboveSet_of_zero (mg : Img ℚ) (t : ℚ) (ht : 0 ≤ t)
    (hz : ∀ i j, mg.pix i j = 0) : aboveSet mg t = ∅ := by
  unfold aboveSet
  apply Finset.filter_false_of_mem
  intro p _
  rw [hz]
  exact not_lt.mpr ht

theorem hysteresis_empty_strong (w : Finset (ℕ × ℕ)) (n : ℕ) :
    hysteresis w ∅ n = ∅ := by
  unfold hysteresis
  apply Function.iterate_fixed
  simp [growStep]

theorem edgeMask_uniform_false (img : Img Color) (c : Color) (s : ℚ)
    (hh : 0 < img.h) (hw : 0 < img.w) (hs : 0 ≤ s)
    (hv : ∀ i j, i < img.h → j < img.w → img.pix i j = c) (i j : ℕ) :
    (edgeMask img s).pix i j = false := by
  have hgray : ∀ a b, a < (toGray img).h → b < (toGray img).w →
      (toGray img).pix a b = luma c := by
    intro a b ha hb
    simp only [toGray]
    rw [hv a b ha hb]
  have hblur : ∀ a b, a < (blur5 (toGray img)).h → b < (blur5 (toGray img)).w →
      (blur5 (toGray img)).pix a b = luma c :=
    fun a b _ _ => blur5_const (toGray img) (luma c) hh hw hgray a b
  have hmag : ∀ a b, (gradMag (blur5 (toGray img))).pix a b = 0 :=
    fun a b => gradMag_const_zero (blur5 (toGray img)) (luma c) hh hw hblur a b
  have hstrong : aboveSet (gradMag (blur5 (toGray img))) (s * 2.5) = ∅ :=
    aboveSet_of_zero _ _ (by linarith) hmag
  have hcanny : ∀ a b, (canny (blur5 (toGray img)) s (s * 2.5)).pix a b = false := by
    intro a b
    simp only [canny, hstrong, hysteresis_empty_strong]
    simp
  simp only [edgeMask, dilate3, List.any_eq_false]
  intro di hdi hinner
  rw [List.any_eq_true] at hinner
  obtain ⟨dj, hdj, hbad⟩ := hinner
  simp [hcanny] at hbad

theorem countEdges_all_false (m : Img Bool) (hz : ∀ i j, m.pix i j = false) :
    countEdges m = 0 := by
  unfold countEdges
  rw [Finset.filter_false_of_mem]
  · rfl
  · intro p _
    simp [hz]

theorem foldl_scanStep_empty (ps : List (ℕ × ℕ))
    (acc : List (Finset (ℕ × ℕ)) × Finset (ℕ × ℕ)) :
    ps.foldl (scanStep ∅) acc = acc := by
  induction ps generalizing acc with
  | nil => rfl
  | cons p rest ih =>
    simp only [List.foldl_cons, scanStep]
    simp only [Finset.not_mem_empty, false_and, if_false]
    exact ih acc

theorem findComponents_all_false (m : Img Bool) (hz : ∀ i j, m.pix i j = false) :
    findComponents m = [] := by
  unfold findComponents
  have hE : edgeFinset m = ∅ := by
    unfold edgeFinset
    apply Finset.filter_false_of_mem
    intro p _
    simp [hz]
  rw [hE, foldl_scanStep_empty]

/-- C9: On a uniform-intensity image the EdgeMask is entirely zero, the
density is 0, the reported tier is SAFE and the region count is 0 (the
stored rounded density is 0 as well). -/
theorem uniform_image_all_safe (img : Img Color) (c : Color) (s minA : ℚ)
    (glyph : GlyphFn) (nm : String)
    (hh : 0 < img.h) (hw : 0 < img.w) (hs : 0 ≤ s)
    (hv : ∀ i j, i < img.h → j < img.w → img.pix i j = c) :
    (∀ i j, (edgeMask img s).pix i j = false) ∧
    density (edgeMask img s) = 0 ∧
    (processImage (Config.mk s minA) glyph nm img).status = Status.SAFE ∧
    (processImage (Config.mk s minA) glyph nm img).count = 0 ∧
    (processImage (Config.mk s minA) glyph nm img).density = 0 := by
  have hmask : ∀ i j, (edgeMask img s).pix i j = false :=
    edgeMask_uniform_false img c s hh hw hs hv
  have hcount : countEdges (edgeMask img s) = 0 := countEdges_all_false _ hmask
  have hdens : density (edgeMask img s) = 0 := by
    unfold density
    rw [hcount]
    simp
  refine ⟨hmask, hdens, ?_, ?_, ?_⟩
  · show classify (density (edgeMask img s)) = Status.SAFE
    rw [hdens]
    unfold classify
    norm_num
  · show (annotate (bgr2rgb img) (findComponents (edgeMask img s)) minA
      (statusColor (classify (density (edgeMask img s)))) glyph).2 = 0
    rw [findComponents_all_false _ hmask]
    rfl
  · show round4 (density (edgeMask img s)) = 0
    rw [hdens]
    unfold round4
    norm_num

/-- Closed instance of uniform_image_all_safe on a concrete all-black
2-by-2 image at sensitivity 100 and minimum area 100. -/
theorem uniform_image_all_safe_witness :
    (0 < blackImg.h ∧ 0 < blackImg.w ∧ (0 : ℚ) ≤ 100 ∧
      (∀ i j, i < blackImg.h → j < blackImg.w → blackImg.pix i j = (0, 0, 0))) ∧
    density (edgeMask blackImg 100) = 0 ∧
    (processImage (Config.mk 100 100) (fun _ _ => ∅) "black.png" blackImg).status =
      Status.SAFE ∧
    (processImage (Config.mk 100 100) (fun _ _ => ∅) "black.png" blackImg).count = 0 :=
  ⟨⟨by decide, by decide, by norm_num, fun i j _ _ => rfl⟩,
   (uniform_image_all_safe blackImg (0, 0, 0) 100 100 (fun _ _ => ∅) "black.png"
     (by decide) (by decide) (by norm_num) (fun i j _ _ => rfl)).2.1,
   (uniform_image_all_safe blackImg (0, 0, 0) 100 100 (fun _ _ => ∅) "black.png"
     (by decide) (by decide) (by norm_num) (fun i j _ _ => rfl)).2.2.1,
   (uniform_image_all_safe blackImg (0, 0, 0) 100 100 (fun _ _ => ∅) "black.png"
     (by decide) (by decide) (by norm_num) (fun i j _ _ => rfl)).2.2.2.1⟩

theorem countEdges_stripe (h w k : ℕ) (hk : k ≤ w) (hh : 0 < h) :
    countEdges (stripeMask h w k) = k := by
  show ((dom h w).filter
    (fun p => (decide (p.1 = 0) && decide (p.2 < k)) = true)).card = k
  have hset : ((dom h w).filter
      (fun p => (decide (p.1 = 0) && decide (p.2 < k)) = true)) =
      Finset.range 1 ×ˢ Finset.range k := by
    ext p
    simp only [dom, Finset.mem_filter, Finset.mem_product, Finset.mem_range,
      Bool.and_eq_true, decide_eq_true_eq]
    constructor
    · rintro ⟨⟨h1, h2⟩, h3, h4⟩
      omega
    · rintro ⟨h1, h2⟩
      omega
  rw [hset, Finset.card_product]
  simp

/-- C10 counterexample: two masks whose raw densities agree through the
fourth decimal place and differ by less than 0.0001, yet whose rounded
stored densities differ, because the raw values straddle a rounding
boundary. -/
theorem round4_boundary_counterexample :
    density d10mask1 = 999/10 ∧
    density d10mask2 = 100000/1001 ∧
    density d10mask1 ≠ density d10mask2 ∧
    ⌊density d10mask1 * 10000⌋ = ⌊density d10mask2 * 10000⌋ ∧
    |density d10mask1 - density d10mask2| < 1/10000 ∧
    round4 (density d10mask1) ≠ round4 (density d10mask2) := by
  have hc1 : countEdges d10mask1 = 999 := countEdges_stripe 1 1000 999 (by norm_num) one_pos
  have hc2 : countEdges d10mask2 = 1000 := countEdges_stripe 1 1001 1000 (by norm_num) one_pos
  have hd1 : density d10mask1 = 999/10 := by
    unfold density
    rw [hc1]
    norm_num [d10mask1, stripeMask]
  have hd2 : density d10mask2 = 100000/1001 := by
    unfold density
    rw [hc2]
    norm_num [d10mask2, stripeMask]
  have hf1 : ⌊(999/10 : ℚ) * 10000⌋ = 999000 := by
    rw [show (999/10 : ℚ) * 10000 = ((999000 : ℤ) : ℚ) by norm_num]
    exact Int.floor_intCast 999000
  have hf2 : ⌊(100000/1001 : ℚ) * 10000⌋ = 999000 := by
    rw [Int.floor_eq_iff]
    constructor
    · rw [div_mul_eq_mul_div, le_div_iff (by norm_num : (0:ℚ) < 1001)]
      norm_num
    · rw [div_mul_eq_mul_div, div_lt_iff (by norm_num : (0:ℚ) < 1001)]
      norm_num
  have hr1 : round4 (999/10 : ℚ) = 999000/10000 := by
    unfold round4
    rw [hf1]
    rw [if_pos (by norm_num)]
    norm_num
  have hr2 : round4 (100000/1001 : ℚ) = 999001/10000 := by
    unfold round4
    rw [hf2]
    rw [if_neg, if_pos]
    · norm_num
    · rw [div_mul_eq_mul_div]
      rw [show ((999000 : ℤ) : ℚ) = 999000 by norm_num]
      rw [lt_sub_iff_add_lt, lt_div_iff (by norm_num : (0:ℚ) < 1001)]
      norm_num
    · rw [div_mul_eq_mul_div]
      rw [show ((999000 : ℤ) : ℚ) = 999000 by norm_num]
      rw [not_lt, le_sub_iff_add_le, le_div_iff (by norm_num : (0:ℚ) < 1001)]
      norm_num
  refine ⟨hd1, hd2, ?_, ?_, ?_, ?_⟩
  · rw [hd1, hd2]
    norm_num
  · rw [hd1, hd2, hf1, hf2]
  · rw [hd1, hd2, abs_lt]
    constructor
    · norm_num
    · norm_num
  · rw [hd1, hd2, hr1, hr2]
    norm_num

/-- C10 amended: the stored density is the raw density rounded to 4
decimal places, hence a multiple of 0.0001; two images whose raw
densities round to the same value report identical densities; and the
tier is computed from the unrounded density. -/
theorem result_density_rounded (cfg : Config) (glyph : GlyphFn) (nm : String)
    (img : Img Color) :
    (processImage cfg glyph nm img).density =
      round4 (density (edgeMask img cfg.sensitivity)) ∧
    (∃ m : ℤ, (processImage cfg glyph nm img).density = (m : ℚ) / 10000) ∧
    (processImage cfg glyph nm img).status =
      classify (density (edgeMask img cfg.sensitivity)) ∧
    ∀ (nm2 : String) (img2 : Img Color),
      round4 (density (edgeMask img2 cfg.sensitivity)) =
        round4 (density (edgeMask img cfg.sensitivity)) →
      (processImage cfg glyph nm2 img2).density = (processImage cfg glyph nm img).density := by
  refine ⟨rfl, ?_, rfl, ?_⟩
  · show ∃ m : ℤ, round4 (density (edgeMask img cfg.sensitivity)) = (m : ℚ) / 10000
    unfold round4
    split_ifs with h1 h2 h3
    · exact ⟨⌊density (edgeMask img cfg.sensitivity) * 10000⌋, rfl⟩
    · refine ⟨⌊density (edgeMask img cfg.sensitivity) * 10000⌋ + 1, ?_⟩
      push_cast
      ring
    · exact ⟨⌊density (edgeMask img cfg.sensitivity) * 10000⌋, rfl⟩
    · refine ⟨⌊density (edgeMask img cfg.sensitivity) * 10000⌋ + 1, ?_⟩
      push_cast
      ring
  · intro nm2 img2 heq
    show round4 (density (edgeMask img2 cfg.sensitivity)) =
      round4 (density (edgeMask img cfg.sensitivity))
    exact heq

/-- Closed instance of result_density_rounded relating two identical
images. -/
theorem result_density_rounded_witness :
    round4 (density (edgeMask blackImg (100 : ℚ))) =
      round4 (density (edgeMask blackImg (100 : ℚ))) ∧
    (processImage (Config.mk 100 100) (fun _ _ => ∅) "b.png" blackImg).density =
      (processImage (Config.mk 100 100) (fun _ _ => ∅) "a.png" blackImg).density :=
  ⟨rfl,
   (result_density_rounded (Config.mk 100 100) (fun _ _ => ∅) "a.png" blackImg).2.2.2
     "b.png" blackImg rfl⟩

end CrackScan
